import Mathlib

/-!
# Verification of the doctor-bot job-matching backend

Shallow embedding of the deterministic core of the repository
(two server variants in `index.mjs` plus the demo variant): the
filter extractors (`parseAsk`, `extractFiltersFromText`), the match
engines (`searchJobs`, `filterJobs`, `findWithNearby`) and the
session-history trimmer (`pushMsg`).

Strings are modelled as Lean `String`/`List Char`; JavaScript numbers
reachable by this code are non-negative integers and are modelled as
`Nat`; regular-expression matching is modelled by explicit leftmost
scanning over character lists with the word-boundary discipline of
JS regexes (`\w` = ASCII letters, digits, underscore).
-/

namespace DoctorBot

/-! ## Character classes and leftmost scanning (JS regex model) -/

/-- ASCII word character, the `\w` class of JS regexes. -/
def isWordChar (c : Char) : Bool := c.isAlpha || c.isDigit || c == '_'

/-- `toLowerCase()` for the ASCII texts modelled here. -/
def lowerChars (s : List Char) : List Char := s.map Char.toLower

/-- `toUpperCase()` for the ASCII texts modelled here. -/
def upperChars (s : List Char) : List Char := s.map Char.toUpper

/-- `toUpperCase()` as a string-to-string map. -/
def upperStr (s : String) : String := String.mk (upperChars s.toList)

/-- `trim()`: strip leading and trailing whitespace. -/
def trimChars (s : List Char) : List Char :=
  ((s.dropWhile Char.isWhitespace).reverse.dropWhile Char.isWhitespace).reverse

/-- Is the character at index `i` (if any) a word character? -/
def isWordAt (s : List Char) (i : Nat) : Bool :=
  match s[i]? with
  | some c => isWordChar c
  | none => false

/-- Is the character at index `i` (if any) an ASCII letter? -/
def alphaAt (s : List Char) (i : Nat) : Bool :=
  match s[i]? with
  | some c => c.isAlpha
  | none => false

/-- Is the character at index `i` (if any) an ASCII digit? -/
def digitAt (s : List Char) (i : Nat) : Bool :=
  match s[i]? with
  | some c => c.isDigit
  | none => false

/-- Word boundary `\b` on the left of position `i`. -/
def leftBoundary (s : List Char) (i : Nat) : Bool :=
  i == 0 || !isWordAt s (i - 1)

/-- The literal word `w` occurs at position `i` of `s`. -/
def matchesAt (s w : List Char) (i : Nat) : Bool := w.isPrefixOf (s.drop i)

/-- `\bw\b`: `w` occurs at `i` with word boundaries on both sides. -/
def boundedWordAt (s w : List Char) (i : Nat) : Bool :=
  matchesAt s w i && leftBoundary s i && !isWordAt s (i + w.length)

/-- `\bw`: `w` occurs at `i` with a word boundary on the left only. -/
def boundedStartAt (s w : List Char) (i : Nat) : Bool :=
  matchesAt s w i && leftBoundary s i

/-- Leftmost index `j ≥ i` with `p j`, probing `fuel` positions: the
position scan of a regex engine. -/
def scanFirst (p : Nat → Bool) : Nat → Nat → Option Nat
  | _, 0 => none
  | i, fuel + 1 => if p i then some i else scanFirst p (i + 1) fuel

/-- `/w/.test s`: plain substring occurrence. -/
def hasSub (s w : List Char) : Bool :=
  (scanFirst (matchesAt s w) 0 (s.length + 1)).isSome

/-- `/\bw\b/.test s`. -/
def hasBoundedWord (s w : List Char) : Bool :=
  (scanFirst (boundedWordAt s w) 0 (s.length + 1)).isSome

/-- `/\bw/.test s`. -/
def hasBoundedStart (s w : List Char) : Bool :=
  (scanFirst (boundedStartAt s w) 0 (s.length + 1)).isSome

theorem scanFirst_some {p : Nat → Bool} :
    ∀ {fuel i j : Nat}, scanFirst p i fuel = some j →
      p j = true ∧ i ≤ j ∧ j < i + fuel ∧ ∀ k, i ≤ k → k < j → p k = false := by
  intro fuel
  induction fuel with
  | zero => intro i j h; simp [scanFirst] at h
  | succ n ih =>
    intro i j h
    rw [scanFirst] at h
    by_cases hp : p i = true
    · rw [if_pos hp] at h
      cases h
      exact ⟨hp, le_refl _, by omega,
        fun k hk1 hk2 => absurd (lt_of_le_of_lt hk1 hk2) (lt_irrefl _)⟩
    · rw [if_neg hp] at h
      obtain ⟨h1, h2, h2b, h3⟩ := ih h
      refine ⟨h1, le_trans (Nat.le_succ i) h2, by omega, fun k hk1 hk2 => ?_⟩
      rcases Nat.eq_or_lt_of_le hk1 with rfl | hlt
      · exact Bool.eq_false_iff.mpr hp
      · exact h3 k hlt hk2

theorem scanFirst_eq_some {p : Nat → Bool} :
    ∀ {fuel i j : Nat}, i ≤ j → j < i + fuel → p j = true →
      (∀ k, i ≤ k → k < j → p k = false) → scanFirst p i fuel = some j := by
  intro fuel
  induction fuel with
  | zero => intro i j h1 h2; omega
  | succ n ih =>
    intro i j h1 h2 h3 h4
    rw [scanFirst]
    rcases Nat.eq_or_lt_of_le h1 with rfl | hlt
    · rw [if_pos h3]
    · rw [if_neg (by simp [h4 i (le_refl i) hlt])]
      exact ih hlt (by omega) h3 (fun k hk1 hk2 => h4 k (by omega) hk2)

/-- Digit-string value, e.g. `Number("0205") = 205`. -/
def digitsToNat (ds : List Char) : Nat :=
  ds.foldl (fun n c => n * 10 + (c.toNat - 48)) 0

/-! ## Job postings (catalog records) -/

/-- One posting of `data/jobs.json`, restricted to the fields the
matching logic reads.  `rate_numeric` is a non-negative integer. -/
structure Job where
  job_id : String
  title : String
  city : String
  state : String
  profession : String
  specialty : String
  rate_numeric : Nat
  rate_unit : String
  priority : String
deriving DecidableEq

/-! ## Variant A: `parseAsk` (intent parsing) -/

/-- The `STATES` set of valid two-letter codes (includes `DC`). -/
def STATES : List String :=
  ["AL","AK","AZ","AR","CA","CO","CT","DC","DE","FL","GA","HI","IA","ID","IL","IN","KS","KY",
   "LA","MA","MD","ME","MI","MN","MO","MS","MT","NC","ND","NE","NH","NJ","NM","NV","NY","OH",
   "OK","OR","PA","RI","SC","SD","TN","TX","UT","VA","VT","WA","WI","WV","WY"]

/-- The `STATE_NAME` table, in source (insertion) order — the order
matters because the lookup loop lets the last textual match win. -/
def STATE_NAME : List (String × String) :=
  [("alabama","AL"),("alaska","AK"),("arizona","AZ"),("arkansas","AR"),("california","CA"),
   ("colorado","CO"),("connecticut","CT"),("delaware","DE"),("florida","FL"),("georgia","GA"),
   ("hawaii","HI"),("idaho","ID"),("illinois","IL"),("indiana","IN"),("iowa","IA"),
   ("kansas","KS"),("kentucky","KY"),("louisiana","LA"),("maine","ME"),("maryland","MD"),
   ("massachusetts","MA"),("michigan","MI"),("minnesota","MN"),("mississippi","MS"),
   ("missouri","MO"),("montana","MT"),("nebraska","NE"),("nevada","NV"),
   ("new hampshire","NH"),("new jersey","NJ"),("new mexico","NM"),("new york","NY"),
   ("north carolina","NC"),("north dakota","ND"),("ohio","OH"),("oklahoma","OK"),
   ("oregon","OR"),("pennsylvania","PA"),("rhode island","RI"),("south carolina","SC"),
   ("south dakota","SD"),("tennessee","TN"),("texas","TX"),("utah","UT"),("vermont","VT"),
   ("virginia","VA"),("washington","WA"),("west virginia","WV"),("wisconsin","WI"),
   ("wyoming","WY")]

/-- Output of `parseAsk`. -/
structure Ask where
  profession : Option String
  specialty : Option String
  state : Option String
  minRate : Option Nat
  unit : Option String
deriving DecidableEq

/-- The profession/specialty rules of `parseAsk`, applied in source
order; each `if` has no `else`, so a later matching rule overwrites
the fields it assigns.  The `(?!y)` of `/\bpa\b(?!y)/` is subsumed by
the trailing `\b` (`y` is a word character). -/
def profSpecRules (t : List Char) : Option String × Option String :=
  let ps : Option String × Option String := (none, none)
  let ps := if hasBoundedWord t "crna".toList || hasSub t "anesth".toList then
    (some "CRNA", some "Anesthesia") else ps
  let ps := if hasBoundedWord t "urgent care".toList then
    (some "Physician", some "Urgent Care") else ps
  let ps := if hasBoundedWord t "np".toList || hasBoundedWord t "nurse practitioner".toList then
    (some "NP", ps.2) else ps
  let ps := if hasBoundedWord t "pa".toList then (some "PA", ps.2) else ps
  let ps := if hasBoundedStart t "radiolog".toList then
    (some "Physician", some "Radiology") else ps
  ps

/-- `/\b([A-Z]{2})\b/i` at position `i`: two letters with word
boundaries on both sides. -/
def twoLetterTokAt (s : List Char) (i : Nat) : Bool :=
  leftBoundary s i && alphaAt s i && alphaAt s (i + 1) && !isWordAt s (i + 2)

/-- The two characters at `i`, as a string. -/
def tokAt (s : List Char) (i : Nat) : String :=
  String.mk [s.getD i ' ', s.getD (i + 1) ' ']

/-- The abbreviation branch: first two-letter token, kept only if it
is a valid code of `STATES`. -/
def stateAbbrev (t : List Char) : Option String :=
  match scanFirst (twoLetterTokAt t) 0 t.length with
  | some i =>
    let tok := upperStr (tokAt t i)
    if STATES.contains tok then some tok else none
  | none => none

/-- Full `parseAsk` state extraction: the abbreviation match followed
by the full-name loop, whose last textual match wins. -/
def stateOf (t : List Char) : Option String :=
  STATE_NAME.foldl (fun acc p => if hasSub t p.1.toList then some p.2 else acc) (stateAbbrev t)

/-- `\$?\s*(\d{2,4})…` can match at a position iff a run of at least
two digits starts there. -/
def payStartAt (s : List Char) (i : Nat) : Bool := digitAt s i && digitAt s (i + 1)

/-- Capture group of the pay regex of `parseAsk`: the first run of at
least two consecutive digits, truncated (greedily) to four digits. -/
def payOf (t : List Char) : Option Nat :=
  (scanFirst (payStartAt t) 0 t.length).map fun i =>
    digitsToNat (((t.drop i).takeWhile Char.isDigit).take 4)

/-- The unit extraction of `parseAsk`: `day` is assigned first and
`hour` afterwards, so an `hr`/`hour` substring anywhere overrides a
`day` substring anywhere (`/day|\/day/` ≡ substring `day`). -/
def unitOf (t : List Char) : Option String :=
  if hasSub t "hr".toList || hasSub t "hour".toList then some "hour"
  else if hasSub t "day".toList then some "day"
  else none

/-- `parseAsk` of variant A, on the lowercased message. -/
def parseAsk (text : String) : Ask :=
  let t := lowerChars text.toList
  let ps := profSpecRules t
  { profession := ps.1, specialty := ps.2, state := stateOf t,
    minRate := payOf t, unit := unitOf t }

/-! ## Variant A: `searchJobs` (tiered match engine) -/

/-- JS truthiness of the optional numeric `minRate` (`null` and `0`
are falsy). -/
def minTruthy : Option Nat → Bool
  | none => false
  | some m => m != 0

/-- A `(!f || j.field === f)` guard: strict equality, with a falsy
filter value (absent or empty string) imposing no constraint. -/
def fieldEq (f : Option String) (v : String) : Bool :=
  match f with
  | none => true
  | some s => if s == "" then true else v == s

/-- `rateMeets`: all three unit branches of the source collapse to
`rate_numeric >= minRate` (the unit is never actually constrained). -/
def rateMeets (j : Job) (minRate : Option Nat) (unit : Option String) : Bool :=
  match minRate with
  | none => true
  | some m =>
    if m == 0 then true
    else
      match unit with
      | none => decide (m ≤ j.rate_numeric)
      | some u =>
        if u == j.rate_unit then decide (m ≤ j.rate_numeric)
        else decide (m ≤ j.rate_numeric)

/-- `j.priority === "High"`. -/
def isHigh (j : Job) : Bool := j.priority == "High"

/-- The tier-0 comparator `(b.priority==="High")-(a.priority==="High")
|| (b.rate_numeric-a.rate_numeric)`, as the total preorder
"`a` may come no later than `b`". -/
def jobLE (a b : Job) : Prop :=
  if isHigh a = isHigh b then b.rate_numeric ≤ a.rate_numeric else isHigh a = true

instance : DecidableRel jobLE := fun a b => by unfold jobLE; infer_instance

instance : IsTotal Job jobLE := by
  constructor
  intro a b
  cases ha : isHigh a <;> cases hb : isHigh b <;> simp_all [jobLE] <;> omega

instance : IsTrans Job jobLE := by
  constructor
  intro a b c hab hbc
  cases ha : isHigh a <;> cases hb : isHigh b <;> cases hc : isHigh c <;>
    simp_all [jobLE] <;> omega

/-- The comparator `(a,b) => b.rate_numeric - a.rate_numeric` of the
fallback tiers: descending rate. -/
def rateGE (a b : Job) : Prop := b.rate_numeric ≤ a.rate_numeric

instance : DecidableRel rateGE := fun a b => by unfold rateGE; infer_instance

instance : IsTotal Job rateGE := ⟨fun a b => Nat.le_total b.rate_numeric a.rate_numeric⟩

instance : IsTrans Job rateGE := ⟨fun _ _ _ hab hbc => le_trans hbc hab⟩

/-- Tier-0 predicate of `searchJobs`: strict (case-sensitive) equality
on profession/specialty/state plus `rateMeets`. -/
def tier0keep (a : Ask) (j : Job) : Bool :=
  fieldEq a.profession j.profession && fieldEq a.specialty j.specialty &&
    fieldEq a.state j.state && rateMeets j a.minRate a.unit

/-- Tier-0 match list: filtered then stably sorted by priority/rate
(JS `Array.prototype.sort` is stable; insertion sort models it). -/
def tier0list (jobs : List Job) (a : Ask) : List Job :=
  (jobs.filter (tier0keep a)).insertionSort jobLE

/-- `Math.round(minRate * 0.85)` over the integers: half rounds up. -/
def slack (m : Nat) : Nat := (17 * m + 10) / 20

/-- Tier-1 predicate: same profession/specialty/state guards, rate
threshold lowered to `slack minRate`. -/
def tier1keep (a : Ask) (j : Job) : Bool :=
  fieldEq a.profession j.profession && fieldEq a.specialty j.specialty &&
    fieldEq a.state j.state && decide (slack (a.minRate.getD 0) ≤ j.rate_numeric)

def tier1list (jobs : List Job) (a : Ask) : List Job :=
  (jobs.filter (tier1keep a)).insertionSort rateGE

/-- Tier-2 predicate (step 3 of the source): drop the state guard,
keep profession/specialty and the original rate threshold. -/
def tier2keep (a : Ask) (j : Job) : Bool :=
  fieldEq a.profession j.profession && fieldEq a.specialty j.specialty &&
    decide (a.minRate.getD 0 ≤ j.rate_numeric)

def tier2list (jobs : List Job) (a : Ask) : List Job :=
  (jobs.filter (tier2keep a)).insertionSort rateGE

/-- Tier-4: top 6 catalog-wide by rate. -/
def tier4list (jobs : List Job) : List Job :=
  (jobs.insertionSort rateGE).take 6

/-- `state || "that location"` (JS: empty string is falsy). -/
def strOr (a : Option String) (d : String) : String :=
  match a with
  | some s => if s == "" then d else s
  | none => d

def tier1note (a : Ask) : String :=
  "Nothing in " ++ strOr a.state "that location" ++ " at $" ++
    toString (a.minRate.getD 0) ++ ", but here are options ≥ ~$" ++
    toString (slack (a.minRate.getD 0)) ++ "."

def tier2note (a : Ask) : String :=
  "No matches in " ++ strOr a.state "that location" ++ ", but here are " ++
    strOr a.specialty (strOr a.profession "similar") ++
    " roles at your target pay in other states."

def tier4note : String :=
  "No exact matches. Here are strong alternatives based on pay and relevance."

/-- Result record of `searchJobs`; `matches'` embeds the source field
`matches` (a Lean keyword). -/
structure SearchResult where
  matches' : List Job
  fallbackNote : Option String
deriving DecidableEq

/-- `searchJobs` of variant A: tier 0 (exact), then — only when
`minRate` is truthy — tier 1 (85% rate slack), tier 2 (drop state),
and finally tier 4 (top-6 by rate with a generic note). -/
def searchJobs (jobs : List Job) (a : Ask) : SearchResult :=
  let m0 := tier0list jobs a
  if m0.length != 0 then { matches' := m0, fallbackNote := none }
  else if minTruthy a.minRate then
    let near := tier1list jobs a
    if near.length != 0 then { matches' := near, fallbackNote := some (tier1note a) }
    else
      let anyS := tier2list jobs a
      if anyS.length != 0 then { matches' := anyS, fallbackNote := some (tier2note a) }
      else { matches' := tier4list jobs, fallbackNote := some tier4note }
  else { matches' := tier4list jobs, fallbackNote := some tier4note }

/-! ## Session history (`pushMsg`, identical in both variants) -/

/-- A `{role, content}` turn of the per-session history. -/
structure ChatMsg where
  role : String
  content : String
deriving DecidableEq

/-- `pushMsg`: append, then `splice(0, h.length - 24)` when the
history exceeds 24 entries (evicting from the oldest end). -/
def pushMsg (h : List ChatMsg) (msg : ChatMsg) : List ChatMsg :=
  let h2 := h ++ [msg]
  if 24 < h2.length then h2.drop (h2.length - 24) else h2

/-- The stored history of a fresh session after a sequence of appends. -/
def historyAfter (msgs : List ChatMsg) : List ChatMsg :=
  msgs.foldl pushMsg []

/-! ## Variant B: `filterJobs` and `findWithNearby` -/

/-- `same(a, b)`: trimmed, upper-cased equality. -/
def same (a b : String) : Bool :=
  upperChars (trimChars a.toList) == upperChars (trimChars b.toList)

/-- `canonUnit`: canonicalize pay-unit spellings; unrecognized
spellings pass through (trimmed and lower-cased). -/
def canonUnit (u : String) : String :=
  let x := String.mk (lowerChars (trimChars u.toList))
  if ["hr", "hour", "hours", "/hr", "/hour"].contains x then "hour"
  else if ["day", "daily", "/day"].contains x then "day"
  else x

/-- The raw filter object fed to `filterJobs`: every field arrives as
an optional string (query parameters / text-extracted values). -/
structure RawFilters where
  state : Option String
  profession : Option String
  specialty : Option String
  unit : Option String
  minRate : Option String
deriving DecidableEq

/-- JS truthiness of an optional string (absent or `""` is falsy). -/
def strTruthy (f : Option String) : Bool :=
  match f with
  | none => false
  | some s => s != ""

/-- The result of the ECMAScript `Number(string)` coercion: `NaN`, a
signed infinity, or a finite decimal `(-1)^neg · mant · 10^exp`,
carried exactly over the integers. -/
inductive NumVal where
  | nan : NumVal
  | inf (pos : Bool) : NumVal
  | dec (neg : Bool) (mant : Nat) (exp : Int) : NumVal
deriving DecidableEq

/-- The unsigned mantissa `Digits [. Digits]` of a decimal literal:
its digits as one integer together with the number of fraction
digits, so that the value is `mant / 10^scale`. -/
def parseMantissa (m : List Char) : Option (Nat × Nat) :=
  let ip := m.takeWhile Char.isDigit
  match m.drop ip.length with
  | [] => if ip.isEmpty then none else some (digitsToNat ip, 0)
  | '.' :: fp =>
    if (!ip.isEmpty || !fp.isEmpty) && fp.all Char.isDigit then
      some (digitsToNat (ip ++ fp), fp.length)
    else none
  | _ => none

/-- The optional exponent `(e|E) [+|-] Digits` that must make up the
whole remainder of the literal (`some 0` when absent). -/
def parseExp : List Char → Option Int
  | [] => some 0
  | c :: rest =>
    if c == 'e' || c == 'E' then
      match rest with
      | '+' :: ds =>
        if !ds.isEmpty && ds.all Char.isDigit then some (digitsToNat ds : Int) else none
      | '-' :: ds =>
        if !ds.isEmpty && ds.all Char.isDigit then some (-(digitsToNat ds : Int)) else none
      | ds =>
        if !ds.isEmpty && ds.all Char.isDigit then some (digitsToNat ds : Int) else none
    else none

/-- `StrUnsignedDecimalLiteral`: `Infinity`, or a decimal mantissa
followed by an optional exponent. -/
def parseUnsigned (m : List Char) : NumVal :=
  if m = "Infinity".toList then .inf true
  else
    let mant := m.takeWhile fun c => c.isDigit || c == '.'
    match parseMantissa mant, parseExp (m.drop mant.length) with
    | some ds, some e => .dec false ds.1 (e - ds.2)
    | _, _ => .nan

def isHexDigitCh (c : Char) : Bool :=
  c.isDigit || ('a' ≤ c && c ≤ 'f') || ('A' ≤ c && c ≤ 'F')

def hexDigitVal (c : Char) : Nat :=
  if c.isDigit then c.toNat - 48
  else if 'a' ≤ c && c ≤ 'f' then c.toNat - 87
  else c.toNat - 55

def radixToNat (base : Nat) (ds : List Char) : Nat :=
  ds.foldl (fun n c => n * base + hexDigitVal c) 0

/-- An unsigned literal, allowing also the sign-less `0x`/`0o`/`0b`
integer forms. -/
def parseUnsignedOrRadix (t : List Char) : NumVal :=
  match t with
  | '0' :: c :: ds =>
    if c == 'x' || c == 'X' then
      if !ds.isEmpty && ds.all isHexDigitCh then .dec false (radixToNat 16 ds) 0 else .nan
    else if c == 'o' || c == 'O' then
      if !ds.isEmpty && ds.all (fun d => '0' ≤ d && d ≤ '7') then
        .dec false (radixToNat 8 ds) 0
      else .nan
    else if c == 'b' || c == 'B' then
      if !ds.isEmpty && ds.all (fun d => d == '0' || d == '1') then
        .dec false (radixToNat 2 ds) 0
      else .nan
    else parseUnsigned t
  | _ => parseUnsigned t

def negVal : NumVal → NumVal
  | .nan => .nan
  | .inf p => .inf (!p)
  | .dec _ m e => .dec true m e

/-- Models the ECMAScript `Number(string)` coercion (`StringToNumber`):
whitespace trimming, the empty string as `0`, an optional sign
followed by a decimal literal (digits, optional fraction, optional
exponent) or `Infinity`, and the sign-less `0x`/`0o`/`0b` integer
forms; every other string is `NaN`.  The numeric value is kept exact:
the final rounding of the mathematical value to float64 (with its
overflow and underflow to `±Infinity`/`0`) is abstracted away, as is
whitespace beyond ASCII. -/
def jsToNumber (s : String) : NumVal :=
  let t := trimChars s.toList
  if t.isEmpty then .dec false 0 0
  else
    match t with
    | '+' :: rest => parseUnsigned rest
    | '-' :: rest => negVal (parseUnsigned rest)
    | _ => parseUnsignedOrRadix t

/-- `Number(minRate) || 0`: an absent `minRate` (`Number(undefined) =
NaN`) and a `NaN` coercion collapse to `0`; any other value (zero
included, which is already falsy) passes through. -/
def jsMinVal (mr : Option String) : NumVal :=
  match mr with
  | none => .dec false 0 0
  | some s =>
    match jsToNumber s with
    | .nan => .dec false 0 0
    | v => v

/-- JS truthiness of the coerced `min` (never `NaN` after `|| 0`). -/
def numTruthy : NumVal → Bool
  | .nan => false
  | .inf _ => true
  | .dec _ m _ => m != 0

/-- `Number(j.rate_numeric || 0) < min` for a non-negative integer
rate, over the exact value of `min`. -/
def rateLtVal (r : Nat) : NumVal → Bool
  | .nan => false
  | .inf pos => pos
  | .dec neg m e =>
    if neg && m != 0 then false
    else if 0 ≤ e then decide (r < m * 10 ^ e.toNat)
    else decide (r * 10 ^ (-e).toNat < m)

/-- The early-return guard chain of `filterJobs`. -/
def keepJob (fs : RawFilters) (j : Job) : Bool :=
  if strTruthy fs.state && !same j.state (fs.state.getD "") then false
  else if strTruthy fs.profession && !same j.profession (fs.profession.getD "") then false
  else if strTruthy fs.specialty && !same j.specialty (fs.specialty.getD "") then false
  else if strTruthy fs.unit && !(canonUnit j.rate_unit == canonUnit (fs.unit.getD "")) then false
  else if numTruthy (jsMinVal fs.minRate) &&
      rateLtVal j.rate_numeric (jsMinVal fs.minRate) then false
  else true

/-- `filterJobs` of variant B (the tier-0 matcher of `/api/search`). -/
def filterJobs (jobs : List Job) (fs : RawFilters) : List Job :=
  jobs.filter (keepJob fs)

/-- The `NEIGHBORS` adjacency table; states outside the four curated
keys have no neighbors. -/
def neighborsOf (st : String) : List String :=
  if st == "TX" then ["NM", "OK", "AR", "LA"]
  else if st == "OK" then ["CO", "KS", "MO", "AR", "TX", "NM"]
  else if st == "NM" then ["AZ", "UT", "CO", "OK", "TX"]
  else if st == "IN" then ["MI", "OH", "KY", "IL"]
  else []

/-- `{...filters, state: ns}`. -/
def setState (fs : RawFilters) (ns : String) : RawFilters :=
  { fs with state := some ns }

/-- The neighbor loop of `findWithNearby`: accumulate each neighbor's
matches and stop early once at least 10 results are collected (the
accumulated list is not truncated). -/
def nearbyLoop (jobs : List Job) (fs : RawFilters) :
    List String → List Job → List String → List Job × List String
  | [], alt, tried => (alt, tried)
  | ns :: rest, alt, tried =>
    let pick := filterJobs jobs (setState fs ns)
    let alt2 := if pick.length != 0 then alt ++ pick else alt
    let tried2 := tried ++ [ns]
    if 10 ≤ alt2.length then (alt2, tried2) else nearbyLoop jobs fs rest alt2 tried2

/-- Result of `findWithNearby`; `matches'` embeds the source field
`matches`. -/
structure NearbyResult where
  matches' : List Job
  usedStates : List String
deriving DecidableEq

/-- `findWithNearby`: in-state matches first; on zero in-state matches
(with a truthy state), probe up to `maxNeighborStates` neighbors. -/
def findWithNearby (jobs : List Job) (filters : RawFilters)
    (maxNeighborStates : Nat) : NearbyResult :=
  let primary := filterJobs jobs filters
  if primary.length != 0 || !strTruthy filters.state then
    { matches' := primary,
      usedStates := if strTruthy filters.state then [filters.state.getD ""] else [] }
  else
    let st := upperStr (filters.state.getD "")
    let r := nearbyLoop jobs filters ((neighborsOf st).take maxNeighborStates) [] [st]
    { matches' := r.1, usedStates := r.2 }

/-! ## Variant B: `extractFiltersFromText` -/

/-- The state-code alternation of `extractFiltersFromText` — the 50
codes of its regex, which (unlike `STATES`) omit `DC`. -/
def stateCodesB : List String :=
  ["AL","AK","AZ","AR","CA","CO","CT","DE","FL","GA","HI","ID","IL","IN","IA","KS","KY",
   "LA","ME","MD","MA","MI","MN","MS","MO","MT","NE","NV","NH","NJ","NM","NY","NC","ND",
   "OH","OK","OR","PA","RI","SC","SD","TN","TX","UT","VT","VA","WA","WV","WI","WY"]

/-- `/\b(AL|AK|…)\b/i` at position `i`: a two-letter token whose
uppercasing is one of the listed codes. -/
def stateTokBAt (t : List Char) (i : Nat) : Bool :=
  twoLetterTokAt t i && stateCodesB.contains (upperStr (tokAt t i))

/-- Index of the first non-whitespace character at or after `j`
(the `\s*` of the rate regex). -/
def skipWs (s : List Char) (j : Nat) : Nat :=
  j + ((s.drop j).takeWhile (fun c => c.isWhitespace)).length

/-- Is character `c` at index `j`? -/
def charIs (s : List Char) (j : Nat) (c : Char) : Bool := s[j]? == some c

/-- The unit alternation `(hour|hr|day)` at position `j` (tried in
source order; no trailing boundary is required). -/
def payUnitAt (s : List Char) (j : Nat) : Option String :=
  if matchesAt s "hour".toList j then some "hour"
  else if matchesAt s "hr".toList j then some "hr"
  else if matchesAt s "day".toList j then some "day"
  else none

/-- `\s*\/\s*(hour|hr|day)` starting at position `i`. -/
def paySlashAt (s : List Char) (i : Nat) : Option String :=
  let j := skipWs s i
  if charIs s j '/' then payUnitAt s (skipWs s (j + 1)) else none

/-- `k` consecutive digits at position `i`. -/
def allDigitsAt (s : List Char) (i k : Nat) : Bool :=
  decide (i + k ≤ s.length) && ((s.drop i).take k).all Char.isDigit

/-- One greedy width `k` of `\d{2,4}` followed by the mandatory unit
suffix; returns the digit capture (with `$` already stripped, as by
`.replace(/\$/g, "")`) and the normalized unit
(`/day/i.test(r[2]) ? "day" : "hour"`). -/
def payTryK (t : List Char) (d k : Nat) : Option (String × String) :=
  if allDigitsAt t d k then
    match paySlashAt t (d + k) with
    | some u => some (String.mk ((t.drop d).take k), if u == "day" then "day" else "hour")
    | none => none
  else none

/-- `(\$?\d{2,4})(?:\s*\/\s*(hour|hr|day))` anchored at position `i`,
with the greedy backtracking of `\d{2,4}` (width 4, then 3, then 2). -/
def payMatchAt (t : List Char) (i : Nat) : Option (String × String) :=
  let d := if charIs t i '$' then i + 1 else i
  match payTryK t d 4 with
  | some r => some r
  | none =>
    match payTryK t d 3 with
    | some r => some r
    | none => payTryK t d 2

/-- Leftmost match of the rate regex of `extractFiltersFromText`. -/
def extractRate (t : List Char) : Option (String × String) :=
  match scanFirst (fun i => (payMatchAt t i).isSome) 0 (t.length + 1) with
  | some i => payMatchAt t i
  | none => none

/-- Output object of `extractFiltersFromText` (fields stay absent
when no rule fires). -/
structure ExtractOut where
  state : Option String
  profession : Option String
  specialty : Option String
  minRate : Option String
  unit : Option String
deriving DecidableEq

/-- `extractFiltersFromText` of variant B: state from the first
state-code token; profession from a first-match-wins `else if` chain;
specialty from two independent `if`s (the second overwrites); rate
only when the number is followed by `/unit`. -/
def extractFiltersFromText (text : String) : ExtractOut :=
  let t := lowerChars text.toList
  let stOut :=
    match scanFirst (stateTokBAt t) 0 t.length with
    | some i => some (upperStr (tokAt t i))
    | none => none
  let prof :=
    if hasBoundedWord t "crna".toList then some "CRNA"
    else if hasBoundedWord t "np".toList then some "NP"
    else if hasBoundedWord t "pa".toList then some "PA"
    else if hasBoundedWord t "md".toList then some "MD"
    else none
  let spec0 := if hasBoundedStart t "anesth".toList then some "Anesthesiology" else none
  let spec := if hasBoundedStart t "radiolog".toList then some "Diagnostic Radiology" else spec0
  let r := extractRate t
  { state := stOut, profession := prof, specialty := spec,
    minRate := r.map Prod.fst, unit := r.map Prod.snd }

/-! ## General helper lemmas -/

theorem digitAt_lt {s : List Char} {i : Nat} (h : digitAt s i = true) : i < s.length := by
  unfold digitAt at h
  rcases hg : s[i]? with _ | c
  · rw [hg] at h; simp at h
  · exact (List.getElem?_eq_some.mp hg).1

theorem alphaAt_lt {s : List Char} {i : Nat} (h : alphaAt s i = true) : i < s.length := by
  unfold alphaAt at h
  rcases hg : s[i]? with _ | c
  · rw [hg] at h; simp at h
  · exact (List.getElem?_eq_some.mp hg).1

/-! ## C8: session history cap -/

theorem foldl_pushMsg :
    ∀ (msgs : List ChatMsg) (h : List ChatMsg), h.length ≤ 24 →
      List.foldl pushMsg h msgs = (h ++ msgs).drop (h.length + msgs.length - 24) := by
  intro msgs
  induction msgs with
  | nil =>
    intro h hh
    simp [Nat.sub_eq_zero_of_le hh]
  | cons m ms ih =>
    intro h hh
    rw [List.foldl_cons]
    by_cases hlen : h.length + 1 ≤ 24
    · have hpush : pushMsg h m = h ++ [m] := by
        unfold pushMsg
        rw [if_neg (by simp; omega)]
      rw [hpush, ih (h ++ [m]) (by simp; omega)]
      have hamt : (h ++ [m]).length + ms.length - 24 = h.length + (m :: ms).length - 24 := by
        simp; omega
      rw [hamt, List.append_assoc]
      rfl
    · have h24 : h.length = 24 := by omega
      have hpush : pushMsg h m = (h ++ [m]).drop 1 := by
        unfold pushMsg
        rw [if_pos (by simp [h24])]
        simp [h24]
      have hlen1 : ((h ++ [m]).drop 1).length = 24 := by simp [h24]
      rw [hpush, ih _ (le_of_eq hlen1)]
      rw [hlen1, ← List.drop_append_of_le_length (by simp), List.drop_drop]
      have hamt : 1 + (24 + ms.length - 24) = h.length + (m :: ms).length - 24 := by
        simp [h24]; omega
      rw [hamt, List.append_assoc]
      rfl

/-- C8. For every session, the stored history after any sequence of
appends to a fresh session has length `min n 24` (never exceeding 24)
and equals the suffix of the appended turns — eviction removes entries
from the oldest end; in particular after 25 appends the length is
exactly 24 and precisely the first turn has been evicted. -/
theorem c8_history_cap (msgs : List ChatMsg) :
    (historyAfter msgs).length = min msgs.length 24 ∧
    historyAfter msgs = msgs.drop (msgs.length - 24) ∧
    (msgs.length = 25 →
      historyAfter msgs = msgs.drop 1 ∧ (historyAfter msgs).length = 24) := by
  have h := foldl_pushMsg msgs [] (by simp)
  simp only [List.nil_append, List.length_nil, Nat.zero_add] at h
  have h2 : historyAfter msgs = msgs.drop (msgs.length - 24) := h
  refine ⟨?_, h2, fun h25 => ⟨by rw [h2, h25], ?_⟩⟩
  · rw [h2, List.length_drop]; omega
  · rw [h2, List.length_drop, h25]

/-- Concrete run of C8: 25 turns appended to one session. -/
def msgs25 : List ChatMsg := (List.range 25).map fun i => { role := "user", content := toString i }

theorem c8_witness :
    historyAfter msgs25 = msgs25.drop 1 ∧ (historyAfter msgs25).length = 24 :=
  (c8_history_cap msgs25).2.2 (by simp [msgs25])

/-! ## C10 and C6: rate and unit extraction in `parseAsk` -/

/-- If position `i` starts the first run of two or more consecutive
digits of `t`, the pay capture of `parseAsk` is the value of (up to)
the first four digits of that run. -/
theorem payOf_eq_first_run {t : List Char} {i : Nat}
    (hp : payStartAt t i = true) (hfirst : ∀ j, j < i → payStartAt t j = false) :
    payOf t = some (digitsToNat (((t.drop i).takeWhile Char.isDigit).take 4)) := by
  have hi : i < t.length := digitAt_lt (by
    unfold payStartAt at hp
    exact (Bool.and_eq_true_iff.mp hp).1)
  unfold payOf
  rw [scanFirst_eq_some (Nat.zero_le i) (by omega) hp (fun k _ hk => hfirst k hk)]
  rfl

/-- Shared characterization of `(parseAsk msg).minRate`. -/
theorem parseAsk_minRate_run (msg : String) (i : Nat)
    (hp : payStartAt (lowerChars msg.toList) i = true)
    (hfirst : ∀ j, j < i → payStartAt (lowerChars msg.toList) j = false) :
    (parseAsk msg).minRate =
      some (digitsToNat ((((lowerChars msg.toList).drop i).takeWhile Char.isDigit).take 4)) := by
  unfold parseAsk
  exact payOf_eq_first_run hp hfirst

/-- C10 (implicit behavior, confirmed). Any run of two or more
consecutive digits anywhere in the message — currency symbol and rate
unit not required — makes `parseAsk` return a non-null `minRate`: the
number formed by the first such run, truncated to its first four
digits. -/
theorem c10_bare_number_rate (msg : String) (i : Nat)
    (hp : payStartAt (lowerChars msg.toList) i = true)
    (hfirst : ∀ j, j < i → payStartAt (lowerChars msg.toList) j = false) :
    (parseAsk msg).minRate =
      some (digitsToNat ((((lowerChars msg.toList).drop i).takeWhile Char.isDigit).take 4)) :=
  parseAsk_minRate_run msg i hp hfirst

theorem c10_witness : (parseAsk "I have 20 years of experience").minRate = some 20 := by
  have h := c10_bare_number_rate "I have 20 years of experience" 7 (by decide)
    (by decide)
  exact h.trans (by decide)

/-- C6 (corrected). With no `hr`/`hour`/`day` substring anywhere in
the message, a present numeric token leaves `unit` absent — it is
*not* defaulted to `"hour"`; conversely an `hr`/`hour` substring
anywhere in the message (not necessarily following the number) forces
`unit = "hour"`. -/
theorem c6_rate_unit_amended (msg msg2 : String) (i : Nat)
    (hhr : hasSub (lowerChars msg.toList) "hr".toList = false)
    (hhour : hasSub (lowerChars msg.toList) "hour".toList = false)
    (hday : hasSub (lowerChars msg.toList) "day".toList = false)
    (hp : payStartAt (lowerChars msg.toList) i = true)
    (hfirst : ∀ j, j < i → payStartAt (lowerChars msg.toList) j = false)
    (hhr2 : hasSub (lowerChars msg2.toList) "hr".toList = true ∨
      hasSub (lowerChars msg2.toList) "hour".toList = true) :
    ((parseAsk msg).minRate =
        some (digitsToNat ((((lowerChars msg.toList).drop i).takeWhile Char.isDigit).take 4)) ∧
      (parseAsk msg).unit = none) ∧
    (parseAsk msg2).unit = some "hour" := by
  refine ⟨⟨parseAsk_minRate_run msg i hp hfirst, ?_⟩, ?_⟩
  · show unitOf (lowerChars msg.toList) = none
    unfold unitOf
    rw [hhr, hhour, hday]
    rfl
  · show unitOf (lowerChars msg2.toList) = some "hour"
    unfold unitOf
    rcases hhr2 with h | h
    · rw [h]; rfl
    · rw [h]
      rcases hb : hasSub (lowerChars msg2.toList) "hr".toList <;> rfl

/-- The C6 claim fails here: a bare number with no unit token leaves
`unit` absent where the claim demands the default `"hour"`. -/
theorem c6_counterexample :
    (parseAsk "pay me 200").minRate = some 200 ∧ (parseAsk "pay me 200").unit = none := by
  constructor <;> decide

/-! ## C4: profession/specialty rule precedence -/

/-- The C4 claim fails on `parseAsk`: the message matches the first
rule (`crna`), yet the later `urgent care` rule overwrites both fields
within the same call. -/
theorem c4_counterexample :
    hasBoundedWord (lowerChars "crna urgent care".toList) "crna".toList = true ∧
    (parseAsk "crna urgent care").profession = some "Physician" ∧
    (parseAsk "crna urgent care").specialty = some "Urgent Care" := by
  refine ⟨by decide, by decide, by decide⟩

/-- C4 (corrected). In `extractFiltersFromText` the profession rules
form a first-match-wins `else if` chain (a matching `crna` rule is
never overwritten), while in `parseAsk` the rules are independent
`if`s and the *last* matching rule wins (a matching `radiolog` rule
overwrites whatever an earlier rule set). -/
theorem c4_rule_precedence_amended (s u : String)
    (hs : hasBoundedWord (lowerChars s.toList) "crna".toList = true)
    (hu : hasBoundedStart (lowerChars u.toList) "radiolog".toList = true) :
    (extractFiltersFromText s).profession = some "CRNA" ∧
    (parseAsk u).profession = some "Physician" ∧
    (parseAsk u).specialty = some "Radiology" := by
  refine ⟨?_, ?_, ?_⟩
  · simp only [extractFiltersFromText, hs, if_true]
  · simp only [parseAsk, profSpecRules, hu, if_true]
  · simp only [parseAsk, profSpecRules, hu, if_true]

theorem c4_witness :
    (extractFiltersFromText "crna np").profession = some "CRNA" ∧
    (parseAsk "crna radiology").profession = some "Physician" ∧
    (parseAsk "crna radiology").specialty = some "Radiology" :=
  c4_rule_precedence_amended "crna np" "crna radiology" (by decide) (by decide)

/-! ## C9: two-letter tokens become state filters -/

theorem foldl_names_none {t : List Char} :
    ∀ (l : List (String × String)) (init : Option String),
      (∀ p ∈ l, hasSub t p.1.toList = false) →
      l.foldl (fun acc p => if hasSub t p.1.toList then some p.2 else acc) init = init := by
  intro l
  induction l with
  | nil => intro init _; rfl
  | cons p ps ih =>
    intro init h
    rw [List.foldl_cons, if_neg (by rw [h p (List.mem_cons_self p ps)]; simp)]
    exact ih init fun q hq => h q (List.mem_cons_of_mem p hq)

theorem twoLetterTokAt_lt {s : List Char} {i : Nat} (h : twoLetterTokAt s i = true) :
    i < s.length := by
  unfold twoLetterTokAt at h
  exact alphaAt_lt (by
    have := (Bool.and_eq_true_iff.mp ((Bool.and_eq_true_iff.mp
      ((Bool.and_eq_true_iff.mp h).1)).1)).2
    exact this)

/-- C9 (implicit behavior, confirmed). If the message contains no
full state-name substring and its first word-bounded two-letter token
uppercases to a valid code, `parseAsk` sets the state filter to that
code; `extractFiltersFromText` does the same whenever the code is in
its own (DC-less) alternation.  Ordinary words such as `in`, `me`,
`pa` therefore become state filters. -/
theorem c9_two_letter_state (msg : String) (i : Nat)
    (hnames : ∀ p ∈ STATE_NAME, hasSub (lowerChars msg.toList) p.1.toList = false)
    (htok : twoLetterTokAt (lowerChars msg.toList) i = true)
    (hfirst : ∀ j, j < i → twoLetterTokAt (lowerChars msg.toList) j = false)
    (hstate : STATES.contains (upperStr (tokAt (lowerChars msg.toList) i)) = true) :
    (parseAsk msg).state = some (upperStr (tokAt (lowerChars msg.toList) i)) ∧
    (stateCodesB.contains (upperStr (tokAt (lowerChars msg.toList) i)) = true →
      (extractFiltersFromText msg).state =
        some (upperStr (tokAt (lowerChars msg.toList) i))) := by
  have hi : i < (lowerChars msg.toList).length := twoLetterTokAt_lt htok
  have hscan : scanFirst (twoLetterTokAt (lowerChars msg.toList)) 0
      (lowerChars msg.toList).length = some i :=
    scanFirst_eq_some (Nat.zero_le i) (by omega) htok (fun k _ hk => hfirst k hk)
  constructor
  · show stateOf (lowerChars msg.toList) = _
    unfold stateOf
    rw [foldl_names_none STATE_NAME _ hnames]
    unfold stateAbbrev
    rw [hscan]
    simp only [hstate, if_true]
  · intro hB
    show (match scanFirst (stateTokBAt (lowerChars msg.toList)) 0
        (lowerChars msg.toList).length with
      | some i => some (upperStr (tokAt (lowerChars msg.toList) i))
      | none => none) = _
    have hscanB : scanFirst (stateTokBAt (lowerChars msg.toList)) 0
        (lowerChars msg.toList).length = some i := by
      apply scanFirst_eq_some (Nat.zero_le i) (by omega)
      · unfold stateTokBAt
        rw [htok, hB]
        rfl
      · intro k _ hk
        unfold stateTokBAt
        rw [hfirst k hk]
        rfl
    rw [hscanB]

theorem c9_witness :
    (parseAsk "any job in dallas").state = some "IN" ∧
    (extractFiltersFromText "any job in dallas").state = some "IN" := by
  have h := c9_two_letter_state "any job in dallas" 8 (by decide) (by decide)
    (by decide) (by decide)
  exact ⟨h.1.trans (by decide), (h.2 (by decide)).trans (by decide)⟩

theorem c6_witness :
    ((parseAsk "pay me 200").minRate =
        some (digitsToNat ((((lowerChars "pay me 200".toList).drop 7).takeWhile Char.isDigit).take 4)) ∧
      (parseAsk "pay me 200").unit = none) ∧
    (parseAsk "night shift hours at 90").unit = some "hour" :=
  c6_rate_unit_amended "pay me 200" "night shift hours at 90" 7 (by decide) (by decide)
    (by decide) (by decide) (by decide) (by decide)

/-! ## C1: the tier-0 matching predicate -/

/-- `minRate ≤ rate` for a finite coerced `minRate` value
`(-1)^neg · m · 10^e` and an integer rate, written over the integers
(a negative `minRate` is below every non-negative rate). -/
def decLE (neg : Bool) (m : Nat) (e : Int) (r : Nat) : Prop :=
  if neg = true ∧ m ≠ 0 then True
  else if 0 ≤ e then m * 10 ^ e.toNat ≤ r
  else m ≤ r * 10 ^ (-e).toNat

/-- The matching predicate of the claim, spelled field by field: every
present (truthy) filter field must match — state/profession/specialty
up to trimming and case, unit up to canonicalization, and
`rateNumeric ≥ minRate` whenever the present `minRate` coerces to a
nonzero finite number, while a `minRate` coercing to `+Infinity`
excludes every posting (absent, `NaN` and zero `minRate` impose no
constraint). -/
def tier0Match (fs : RawFilters) (j : Job) : Prop :=
  (∀ s, fs.state = some s → s ≠ "" → same j.state s = true) ∧
  (∀ p, fs.profession = some p → p ≠ "" → same j.profession p = true) ∧
  (∀ sp, fs.specialty = some sp → sp ≠ "" → same j.specialty sp = true) ∧
  (∀ u, fs.unit = some u → u ≠ "" → canonUnit j.rate_unit = canonUnit u) ∧
  (∀ s, fs.minRate = some s → ∀ neg m e, jsToNumber s = NumVal.dec neg m e → m ≠ 0 →
    decLE neg m e j.rate_numeric) ∧
  (∀ s, fs.minRate = some s → jsToNumber s ≠ NumVal.inf true)

theorem rateLtVal_false_iff {r m : Nat} {neg : Bool} {e : Int} :
    rateLtVal r (NumVal.dec neg m e) = false ↔ decLE neg m e r := by
  simp only [rateLtVal]
  unfold decLE
  by_cases h1 : neg = true ∧ m ≠ 0
  · rw [if_pos (by simp [h1.1, h1.2]), if_pos h1]
    simp
  · rw [if_neg (by simpa using h1), if_neg h1]
    by_cases h2 : (0 : Int) ≤ e
    · rw [if_pos h2, if_pos h2]
      simp
    · rw [if_neg h2, if_neg h2]
      simp

theorem rateGuard_iff (mr : Option String) (r : Nat) :
    (numTruthy (jsMinVal mr) && rateLtVal r (jsMinVal mr)) = false ↔
      ((∀ s, mr = some s → ∀ neg m e, jsToNumber s = NumVal.dec neg m e → m ≠ 0 →
          decLE neg m e r) ∧
       (∀ s, mr = some s → jsToNumber s ≠ NumVal.inf true)) := by
  cases mr with
  | none => simp [jsMinVal, numTruthy]
  | some s =>
    cases hn : jsToNumber s with
    | nan => simp [jsMinVal, hn, numTruthy]
    | inf pos =>
      cases pos
      · simp [jsMinVal, hn, numTruthy, rateLtVal]
      · simp [jsMinVal, hn, numTruthy, rateLtVal]
    | dec neg m e =>
      by_cases hm : m = 0
      · subst hm
        simp [jsMinVal, hn, numTruthy]
      · simp only [jsMinVal, hn]
        constructor
        · intro h
          have hlt : rateLtVal r (NumVal.dec neg m e) = false := by
            rcases Bool.and_eq_false_iff.mp h with h' | h'
            · exact absurd h' (by simp [numTruthy, hm])
            · exact h'
          refine ⟨?_, ?_⟩
          · intro s' hs' neg' m' e' hj _
            cases hs'
            rw [hn] at hj
            cases hj
            exact rateLtVal_false_iff.mp hlt
          · intro s' hs' hj
            cases hs'
            rw [hn] at hj
            exact absurd hj (by simp)
        · rintro ⟨h1, _⟩
          have := h1 s rfl neg m e hn hm
          rw [rateLtVal_false_iff.mpr this]
          simp

theorem optGuard_iff (f : Option String) (cmp : String → Bool) :
    (strTruthy f && !cmp (f.getD "")) = false ↔
      ∀ s, f = some s → s ≠ "" → cmp s = true := by
  cases f with
  | none => simp [strTruthy]
  | some s =>
    by_cases hs : s = ""
    · subst hs; simp [strTruthy]
    · simp [strTruthy, hs]

theorem keepJob_iff (fs : RawFilters) (j : Job) :
    keepJob fs j = true ↔ tier0Match fs j := by
  unfold keepJob tier0Match
  constructor
  · intro h
    by_cases h1 : (strTruthy fs.state && !same j.state (fs.state.getD "")) = true
    · rw [if_pos h1] at h; exact absurd h (by simp)
    rw [if_neg h1] at h
    by_cases h2 : (strTruthy fs.profession && !same j.profession (fs.profession.getD "")) = true
    · rw [if_pos h2] at h; exact absurd h (by simp)
    rw [if_neg h2] at h
    by_cases h3 : (strTruthy fs.specialty && !same j.specialty (fs.specialty.getD "")) = true
    · rw [if_pos h3] at h; exact absurd h (by simp)
    rw [if_neg h3] at h
    by_cases h4 : (strTruthy fs.unit &&
        !(canonUnit j.rate_unit == canonUnit (fs.unit.getD ""))) = true
    · rw [if_pos h4] at h; exact absurd h (by simp)
    rw [if_neg h4] at h
    by_cases h5 : (numTruthy (jsMinVal fs.minRate) &&
        rateLtVal j.rate_numeric (jsMinVal fs.minRate)) = true
    · rw [if_pos h5] at h; exact absurd h (by simp)
    have hrg := (rateGuard_iff fs.minRate j.rate_numeric).mp (Bool.eq_false_iff.mpr h5)
    refine ⟨(optGuard_iff _ _).mp (by simpa using h1),
      (optGuard_iff _ _).mp (by simpa using h2),
      (optGuard_iff _ _).mp (by simpa using h3), ?_, hrg.1, hrg.2⟩
    have := (optGuard_iff fs.unit
      (fun u => canonUnit j.rate_unit == canonUnit u)).mp (by simpa using h4)
    intro u hu hne
    exact beq_iff_eq.mp (this u hu hne)
  · rintro ⟨m1, m2, m3, m4, m5, m6⟩
    rw [if_neg (by rw [(optGuard_iff _ _).mpr m1]; simp),
      if_neg (by rw [(optGuard_iff _ _).mpr m2]; simp),
      if_neg (by rw [(optGuard_iff _ _).mpr m3]; simp),
      if_neg (by
        rw [(optGuard_iff fs.unit (fun u => canonUnit j.rate_unit == canonUnit u)).mpr
          (fun u hu hne => beq_iff_eq.mpr (m4 u hu hne))]
        simp),
      if_neg (by rw [(rateGuard_iff fs.minRate j.rate_numeric).mpr ⟨m5, m6⟩]; simp)]

/-- A posting and a filter refuting C1 on `searchJobs`: the posting's
profession matches the present filter value case-insensitively, yet
the tier-0 exact result (computed with strict `===`) omits it, and
the engine falls back instead of returning it at tier 0. -/
def jobC1 : Job :=
  { job_id := "JO-1", title := "", city := "", state := "FL", profession := "CRNA",
    specialty := "Anesthesia", rate_numeric := 200, rate_unit := "hour", priority := "High" }

def askC1 : Ask :=
  { profession := some "crna", specialty := none, state := none, minRate := none, unit := none }

/-- The C1 claim fails on `searchJobs`: the profession filter `crna`
matches the posting `CRNA` case-insensitively, yet the tier-0 exact
result is empty and the engine answers with a fallback note. -/
theorem c1_counterexample :
    same jobC1.profession "crna" = true ∧
    tier0list [jobC1] askC1 = [] ∧
    (searchJobs [jobC1] askC1).fallbackNote ≠ none := by
  refine ⟨by decide, by decide, by decide⟩

/-- C1 (corrected, for `filterJobs`).  A posting is in the
`filterJobs` result exactly when it is in the catalog and every
present filter field matches it: state/profession/specialty by
trimmed case-insensitive equality, unit by canonicalized equality,
and `rateNumeric ≥ minRate` whenever the present `minRate` string
coerces (via `Number`) to a nonzero finite value, with a `+Infinity`
coercion excluding every posting; absent, empty, `NaN` and zero
fields impose no constraint.  (`searchJobs`' own tier 0 instead
compares case-sensitively and ignores the unit — see the
counterexample.) -/
theorem c1_filterJobs_tier0_iff (jobs : List Job) (fs : RawFilters) (j : Job) :
    j ∈ filterJobs jobs fs ↔ j ∈ jobs ∧ tier0Match fs j := by
  unfold filterJobs
  rw [List.mem_filter, keepJob_iff]

/-! ## C7: malformed filter fields degrade to absent -/

/-- C7 (confirmed, for the `/api/search` matcher `filterJobs`).  An
invalid `minRate` — one whose `Number` coercion is `NaN` — behaves
exactly like an absent one, an empty-string `state` behaves exactly
like an absent one, and the search always completes with a sublist of
the catalog — the matching logic is total and never rejects a
request. -/
theorem c7_malformed_degrade (jobs : List Job) (fs : RawFilters) :
    (∀ s, fs.minRate = some s → jsToNumber s = NumVal.nan →
      filterJobs jobs fs = filterJobs jobs { fs with minRate := none }) ∧
    (fs.state = some "" → filterJobs jobs fs = filterJobs jobs { fs with state := none }) ∧
    (filterJobs jobs fs).Sublist jobs := by
  refine ⟨?_, ?_, List.filter_sublist _⟩
  · intro s hs hparse
    unfold filterJobs
    congr 1
    funext j
    unfold keepJob
    have hmv : jsMinVal fs.minRate = jsMinVal (none : Option String) := by
      rw [hs]; simp only [jsMinVal]; rw [hparse]
    rw [hmv]
  · intro hst
    unfold filterJobs
    congr 1
    funext j
    unfold keepJob
    rw [hst]
    rfl

def jobsC7 : List Job := [jobC1]

def fsC7 : RawFilters :=
  { state := some "", profession := none, specialty := none, unit := none,
    minRate := some "around 200" }

theorem c7_witness :
    filterJobs jobsC7 fsC7 = filterJobs jobsC7 { fsC7 with minRate := none } ∧
    filterJobs jobsC7 fsC7 = filterJobs jobsC7 { fsC7 with state := none } ∧
    (filterJobs jobsC7 fsC7).Sublist jobsC7 := by
  have h := c7_malformed_degrade jobsC7 fsC7
  exact ⟨h.1 "around 200" rfl (by decide), h.2.1 rfl, h.2.2⟩

/-! ## C3: tier-1 rate relaxation -/

theorem insertionSort_eq_nil {r : Job → Job → Prop} [DecidableRel r] {l : List Job}
    (h : l.insertionSort r = []) : l = [] := by
  have hp := List.perm_insertionSort r l
  rw [h] at hp
  exact hp.symm.eq_nil

/-- C3 (confirmed).  With `minRate` present and an empty tier-0
result, a non-empty tier-1 recomputation (threshold `slack minRate =
round(minRate·0.85)`, all other constraints unchanged) is returned
with the relaxation `fallbackNote`, and every returned posting has
`rate_numeric ≥ slack minRate`.  Tier 1 is not reached when tier 0 is
non-empty, and with `minRate` absent an empty tier 0 falls through
directly to the generic tier-4 fallback. -/
theorem c3_rate_relaxation (jobs : List Job) (a : Ask) :
    (∀ m, a.minRate = some m → tier0list jobs a = [] → tier1list jobs a ≠ [] →
      searchJobs jobs a =
        { matches' := tier1list jobs a, fallbackNote := some (tier1note a) } ∧
      ∀ j ∈ tier1list jobs a, slack m ≤ j.rate_numeric) ∧
    (tier0list jobs a ≠ [] →
      searchJobs jobs a = { matches' := tier0list jobs a, fallbackNote := none }) ∧
    (a.minRate = none → tier0list jobs a = [] →
      searchJobs jobs a = { matches' := tier4list jobs, fallbackNote := some tier4note }) := by
  refine ⟨?_, ?_, ?_⟩
  · intro m hm h0 h1
    have hm0 : m ≠ 0 := by
      intro hmz
      subst hmz
      apply h1
      have hf : jobs.filter (tier1keep a) = jobs.filter (tier0keep a) :=
        List.filter_congr fun j _ => by
          simp [tier1keep, tier0keep, rateMeets, hm, slack]
      have hf0 : jobs.filter (tier0keep a) = [] := insertionSort_eq_nil h0
      unfold tier1list
      rw [hf, hf0]
      rfl
    have hminT : minTruthy a.minRate = true := by
      rw [hm]; simp [minTruthy, hm0]
    have h0len : (tier0list jobs a).length = 0 := by rw [h0]; rfl
    have h1len : (tier1list jobs a).length ≠ 0 := fun hc => h1 (List.length_eq_zero.mp hc)
    constructor
    · simp only [searchJobs]
      rw [if_neg (by simp [h0len]), if_pos hminT, if_pos (by simpa using h1len)]
    · intro j hj
      unfold tier1list at hj
      rw [List.mem_insertionSort] at hj
      have hk := (List.mem_filter.mp hj).2
      unfold tier1keep at hk
      have h4 := (Bool.and_eq_true_iff.mp hk).2
      rw [hm] at h4
      simpa using h4
  · intro h0
    have hlen : (tier0list jobs a).length ≠ 0 := fun hc => h0 (List.length_eq_zero.mp hc)
    simp only [searchJobs]
    rw [if_pos (by simpa using hlen)]
  · intro hm h0
    simp only [searchJobs]
    rw [if_neg (by simp [h0]), if_neg (by rw [hm]; simp [minTruthy])]

def jobC3 : Job :=
  { job_id := "JO-3", title := "", city := "", state := "FL", profession := "CRNA",
    specialty := "Anesthesia", rate_numeric := 180, rate_unit := "hour", priority := "Standard" }

def askC3 : Ask :=
  { profession := none, specialty := none, state := none, minRate := some 200, unit := none }

theorem c3_witness :
    searchJobs [jobC3] askC3 =
      { matches' := tier1list [jobC3] askC3, fallbackNote := some (tier1note askC3) } ∧
    ∀ j ∈ tier1list [jobC3] askC3, slack 200 ≤ j.rate_numeric :=
  (c3_rate_relaxation [jobC3] askC3).1 200 rfl (by decide) (by decide)

/-! ## C5: the all-absent filter set -/

/-- The all-absent FilterSet. -/
def allAbsent : Ask :=
  { profession := none, specialty := none, state := none, minRate := none, unit := none }

/-- The C5 claim fails on the empty catalog: the all-absent search
falls through to tier 4 and carries a fallback note, so its result is
not produced at tier 0. -/
theorem c5_counterexample : (searchJobs [] allAbsent).fallbackNote ≠ none := by decide

/-- C5 (corrected).  For every *non-empty* catalog, the all-absent
FilterSet returns the entire catalog at tier 0 (no fallback note),
stably sorted by the priority-then-rate order `jobLE`: the result is a
permutation of the catalog, it is sorted, and any two catalog entries
already in comparator order (in particular exact ties) keep their
original relative order.  The empty catalog instead reaches tier 4
and returns the empty list with the generic note. -/
theorem c5_all_absent (jobs : List Job) :
    (jobs ≠ [] →
      searchJobs jobs allAbsent =
        { matches' := jobs.insertionSort jobLE, fallbackNote := none } ∧
      (searchJobs jobs allAbsent).matches'.Perm jobs ∧
      List.Sorted jobLE (searchJobs jobs allAbsent).matches' ∧
      ∀ x y : Job, [x, y].Sublist jobs → jobLE x y →
        [x, y].Sublist (searchJobs jobs allAbsent).matches') ∧
    searchJobs [] allAbsent = { matches' := [], fallbackNote := some tier4note } := by
  refine ⟨?_, by decide⟩
  intro hne
  have ht0 : tier0list jobs allAbsent = jobs.insertionSort jobLE := by
    unfold tier0list
    have hf : jobs.filter (tier0keep allAbsent) = jobs :=
      List.filter_eq_self.mpr fun j _ => rfl
    rw [hf]
  have hlen : (tier0list jobs allAbsent).length ≠ 0 := by
    rw [ht0, List.length_insertionSort]
    exact fun hc => hne (List.length_eq_zero.mp hc)
  have hres : searchJobs jobs allAbsent =
      { matches' := jobs.insertionSort jobLE, fallbackNote := none } := by
    simp only [searchJobs]
    rw [if_pos (by simpa using hlen), ht0]
  refine ⟨hres, ?_, ?_, ?_⟩
  · rw [hres]
    exact List.perm_insertionSort jobLE jobs
  · rw [hres]
    exact List.sorted_insertionSort jobLE jobs
  · intro x y hsub hle
    rw [hres]
    exact List.pair_sublist_insertionSort hle hsub

def jo1 : Job :=
  { job_id := "JO-1", title := "CRNA", city := "Tampa", state := "FL", profession := "CRNA",
    specialty := "Anesthesia", rate_numeric := 200, rate_unit := "hour", priority := "High" }

def jo2 : Job :=
  { job_id := "JO-2", title := "CRNA", city := "Miami", state := "FL", profession := "CRNA",
    specialty := "Anesthesia", rate_numeric := 150, rate_unit := "hour", priority := "Standard" }

theorem c5_witness :
    searchJobs [jo1, jo2] allAbsent =
      { matches' := [jo1, jo2].insertionSort jobLE, fallbackNote := none } :=
  ((c5_all_absent [jo1, jo2]).1 (by decide)).1

/-! ## C2: neighbor-state expansion bounds -/

theorem nearbyLoop_tried (jobs : List Job) (fs : RawFilters) :
    ∀ (ns : List String) (alt : List Job) (tried : List String),
      ∃ pr : List String, (nearbyLoop jobs fs ns alt tried).2 = tried ++ pr ∧ pr.Sublist ns := by
  intro ns
  induction ns with
  | nil => intro alt tried; exact ⟨[], by simp [nearbyLoop], List.nil_sublist _⟩
  | cons n rest ih =>
    intro alt tried
    simp only [nearbyLoop]
    by_cases h10 : 10 ≤ (if (filterJobs jobs (setState fs n)).length != 0 then
        alt ++ filterJobs jobs (setState fs n) else alt).length
    · rw [if_pos h10]
      exact ⟨[n], rfl, (List.nil_sublist rest).cons₂ n⟩
    · rw [if_neg h10]
      obtain ⟨pr, h1, h2⟩ := ih _ (tried ++ [n])
      exact ⟨n :: pr, by rw [h1, List.append_assoc]; rfl, h2.cons₂ n⟩

theorem nearbyLoop_bound (jobs : List Job) (fs : RawFilters) (B : Nat) :
    ∀ (ns : List String) (alt : List Job) (tried : List String),
      (∀ n ∈ ns, (filterJobs jobs (setState fs n)).length ≤ B) →
      alt.length ≤ 9 → (nearbyLoop jobs fs ns alt tried).1.length ≤ 9 + B := by
  intro ns
  induction ns with
  | nil =>
    intro alt tried _ halt
    simp only [nearbyLoop]
    omega
  | cons n rest ih =>
    intro alt tried h halt
    simp only [nearbyLoop]
    have hpick : (filterJobs jobs (setState fs n)).length ≤ B :=
      h n (List.mem_cons_self n rest)
    have halt2 : (if (filterJobs jobs (setState fs n)).length != 0 then
        alt ++ filterJobs jobs (setState fs n) else alt).length ≤ 9 + B := by
      split
      · rw [List.length_append]; omega
      · omega
    by_cases h10 : 10 ≤ (if (filterJobs jobs (setState fs n)).length != 0 then
        alt ++ filterJobs jobs (setState fs n) else alt).length
    · rw [if_pos h10]
      exact halt2
    · rw [if_neg h10]
      exact ih _ (tried ++ [n]) (fun q hq => h q (List.mem_cons_of_mem n hq)) (by omega)

/-- C2 (corrected). When a truthy state filter has zero in-state
matches, the expansion probes at most 4 neighbor states taken from the
adjacency table (`usedStates` is the state followed by at most 4
probed neighbors), a state absent from the table yields no matches,
and the accumulated result is bounded by `9 + B` whenever every single
neighbor contributes at most `B` matches — the loop stops once 10
results are reached but does not truncate, so the returned list can
exceed 10 postings (see the counterexample). -/
theorem c2_neighbor_expansion (jobs : List Job) (fs : RawFilters) (s : String)
    (hs : fs.state = some s) (hne : s ≠ "") (hempty : filterJobs jobs fs = []) :
    (∃ probed : List String,
      (findWithNearby jobs fs 4).usedStates = upperStr s :: probed ∧
      probed.length ≤ 4 ∧ probed.Sublist (neighborsOf (upperStr s))) ∧
    (∀ B, (∀ n ∈ neighborsOf (upperStr s), (filterJobs jobs (setState fs n)).length ≤ B) →
      (findWithNearby jobs fs 4).matches'.length ≤ 9 + B) ∧
    (neighborsOf (upperStr s) = [] → (findWithNearby jobs fs 4).matches' = []) := by
  have hT : strTruthy fs.state = true := by rw [hs]; simp [strTruthy, hne]
  have hgetD : fs.state.getD "" = s := by rw [hs]; rfl
  have hfnd : findWithNearby jobs fs 4 =
      { matches' := (nearbyLoop jobs fs ((neighborsOf (upperStr s)).take 4) [] [upperStr s]).1,
        usedStates :=
          (nearbyLoop jobs fs ((neighborsOf (upperStr s)).take 4) [] [upperStr s]).2 } := by
    simp only [findWithNearby]
    rw [if_neg (by simp [hempty, hT]), hgetD]
  refine ⟨?_, ?_, ?_⟩
  · obtain ⟨pr, h1, h2⟩ := nearbyLoop_tried jobs fs ((neighborsOf (upperStr s)).take 4)
      [] [upperStr s]
    refine ⟨pr, ?_, ?_, h2.trans (List.take_sublist 4 _)⟩
    · rw [hfnd]
      simpa using h1
    · exact le_trans h2.length_le (by simp)
  · intro B hB
    rw [hfnd]
    exact nearbyLoop_bound jobs fs B _ [] [upperStr s]
      (fun q hq => hB q (List.take_subset 4 _ hq)) (by simp)
  · intro hnil
    rw [hfnd, hnil]
    rfl

def fsTX : RawFilters :=
  { state := some "TX", profession := none, specialty := none, unit := none, minRate := none }

theorem c2_witness :
    (∃ probed : List String,
      (findWithNearby [] fsTX 4).usedStates = upperStr "TX" :: probed ∧
      probed.length ≤ 4 ∧ probed.Sublist (neighborsOf (upperStr "TX"))) ∧
    (∀ B, (∀ n ∈ neighborsOf (upperStr "TX"),
        (filterJobs [] (setState fsTX n)).length ≤ B) →
      (findWithNearby [] fsTX 4).matches'.length ≤ 9 + B) ∧
    (neighborsOf (upperStr "TX") = [] → (findWithNearby [] fsTX 4).matches' = []) :=
  c2_neighbor_expansion [] fsTX "TX" rfl (by decide) rfl

/-- One New-Mexico posting per index. -/
def nmJob (n : Nat) : Job :=
  { job_id := toString n, title := "", city := "", state := "NM", profession := "CRNA",
    specialty := "", rate_numeric := 100, rate_unit := "hour", priority := "Standard" }

/-- Eleven NM postings: no TX match, one neighbor probe collects all
eleven at once. -/
def catalog11 : List Job := (List.range 11).map nmJob

/-- The C2 claim fails here: the neighbor expansion for `TX` over
`catalog11` returns 11 postings — more than the claimed cap of 10. -/
theorem c2_counterexample : 10 < (findWithNearby catalog11 fsTX 4).matches'.length := by
  decide

end DoctorBot
